import Mathlib

/-!
Verification of generalized_procrustes (src/helper.py).

Shallow embedding of the Generalized Procrustes convergence loop:

```python
def generalized_procrustes(surf):
    ref_v = np.copy(surf[0].v)
    old_ref_v = np.copy(ref_v + 1)
    n_steps = 0
    while (np.linalg.norm(ref_v - old_ref_v) > 1e-11 and 1000 > n_steps):
        n_steps = n_steps + 1
        old_ref_v = np.copy(ref_v)
        for i, s in enumerate(surf):
            s.v = np.array(align(s.v, ref_v))
        ref_v = np.mean(np.array([s.v for s in surf]), axis=0)
```

Modelling decisions:
* Vertex coordinates are exact rationals (`ℚ`); the decimal literal `1e-11`
  is read as the exact rational `1/10^11`.  The guard `norm(d) > 1e-11` is
  embedded as the equivalent squared comparison `sumSq d > (1/10^11)^2`
  (`Real.sqrt` is monotone on nonnegatives; the equivalence with the
  square-root formulation is proved below, not assumed).
* A mesh is represented by its mutable vertex array `s.v`, a list of 3D
  points; `surf` is the list of those arrays in collection order.
* The external collaborator `align` (imported from
  `morphomatics.manifold.util`, not part of this repository) is a parameter
  of type `AlignFn`; it may fail (`Except.error`), and any such failure is
  a raised Python exception.
* NumPy semantics made explicit: `ref_v + 1` adds `1` to every coordinate;
  subtraction of two `(n,3)` and `(m,3)` arrays broadcasts when `n = m` or
  one of them is `1` and otherwise raises `ValueError`; stacking a ragged
  list of per-mesh arrays inside `np.mean(..., axis=0)` raises `ValueError`;
  `surf[0]` on an empty list raises `IndexError`.
* The `while` loop is embedded with a fuel parameter; fuel `1001` is enough
  for the guard `n_steps < 1000` to stop the loop before the fuel does, and
  a fuel-stability lemma shows the chosen fuel is not a hidden bound.
-/

/-- A 3D point (one row of a `(n, 3)` NumPy array). -/
@[ext]
structure Vec3 where
  x : ℚ
  y : ℚ
  z : ℚ
deriving DecidableEq, Repr

/-- Componentwise addition of 3D points. -/
def vAdd (p q : Vec3) : Vec3 := ⟨p.x + q.x, p.y + q.y, p.z + q.z⟩

/-- Componentwise subtraction of 3D points. -/
def vSub (p q : Vec3) : Vec3 := ⟨p.x - q.x, p.y - q.y, p.z - q.z⟩

/-- Scaling of a 3D point by a rational. -/
def vScale (c : ℚ) (p : Vec3) : Vec3 := ⟨c * p.x, c * p.y, c * p.z⟩

/-- The origin. -/
def vZero : Vec3 := ⟨0, 0, 0⟩

/-- Squared Euclidean norm of one 3D point. -/
def vNormSq (p : Vec3) : ℚ := p.x * p.x + p.y * p.y + p.z * p.z

/-- A vertex array: the value of `s.v` of one mesh, a `(n, 3)` float array. -/
abbrev Verts := List Vec3

/-- NumPy `v + 1`: the scalar `1` broadcasts over every coordinate. -/
def npAdd1 (v : Verts) : Verts := v.map (fun p => ⟨p.x + 1, p.y + 1, p.z + 1⟩)

/-- Sum of a list of 3D points (flattened, starting from the origin). -/
def vSum (l : List Vec3) : Vec3 := l.foldl vAdd vZero

/-- `sum((a - b)**2)` flattened: sum over all vertices and axes of squared
components; `np.linalg.norm` is the square root of this. -/
def sumSq (v : Verts) : ℚ := (v.map vNormSq).sum

/-- Python exceptions that can escape `generalized_procrustes`. -/
inductive PyError where
  /-- Python `IndexError`, e.g. `surf[0]` on an empty list. -/
  | indexError : PyError
  /-- NumPy `ValueError`: broadcasting two incompatible shapes, or
  stacking a ragged list of arrays. -/
  | valueError : PyError
  /-- An exception raised inside the black-box `align` primitive (the
  payload distinguishes distinct failures). -/
  | alignExn (code : ℕ) : PyError
deriving DecidableEq, Repr

/-- NumPy subtraction `a - b` on `(n,3)` / `(m,3)` arrays: elementwise when `n = m`, NumPy
broadcasting when one operand has a single row, `ValueError` otherwise. -/
def npSub (a b : Verts) : Except PyError Verts :=
  if a.length = b.length then .ok (List.zipWith vSub a b)
  else
    match a, b with
    | [p], _ => .ok (b.map (fun q => vSub p q))
    | _, [q] => .ok (a.map (fun p => vSub p q))
    | _, _ => .error .valueError

/-- NumPy `np.mean(np.array([s.v for s in surf]), axis=0)`: stacking requires all
per-mesh arrays to have equal length (ragged input raises `ValueError`),
then each vertex index / axis is averaged across all meshes.  The `[]` case
is unreachable in `generalized_procrustes`: an empty `surf` raises
`IndexError` at `surf[0]` before the loop. -/
def npMean (vs : List Verts) : Except PyError Verts :=
  match vs with
  | [] => .error .valueError
  | v :: rest =>
    if rest.all (fun w => w.length = v.length) then
      .ok ((rest.foldl (fun acc w => List.zipWith vAdd acc w) v).map
            (fun p => vScale (1 / ((rest.length + 1 : ℕ) : ℚ)) p))
    else .error .valueError

/-- Type of the external pairwise-alignment primitive
`align(source_vertices, target_vertices)`: a black box that either returns
the aligned source vertices or raises. -/
abbrev AlignFn := Verts → Verts → Except PyError Verts

/-- The local state of the loop: the caller-owned vertex arrays `s.v`
(mutated in place), and the locals `ref_v`, `old_ref_v`, `n_steps`. -/
structure GPAState where
  surf : List Verts
  ref_v : Verts
  old_ref_v : Verts
  n_steps : ℕ
deriving DecidableEq, Repr

/-- Outcome of a stateful fragment: normal completion, or a raised
exception.  Since the vertex arrays are mutated in place, the caller still
observes the state `s` reached when the exception was raised. -/
inductive Outcome (α : Type) where
  | ok : α → Outcome α
  | exn : PyError → α → Outcome α
deriving DecidableEq, Repr

/-- The state an `Outcome` leaves behind (normal or exceptional). -/
def Outcome.state : Outcome α → α
  | .ok s => s
  | .exn _ s => s

/-- The inner `for i, s in enumerate(surf): s.v = np.array(align(s.v, ref_v))`:
each array is replaced in collection order; if one `align` call raises, the
arrays before it keep their new values and the rest keep their old ones. -/
def alignPass (alignF : AlignFn) (ref : Verts) : List Verts → Outcome (List Verts)
  | [] => .ok []
  | v :: rest =>
    match alignF v ref with
    | .error e => .exn e (v :: rest)
    | .ok w =>
      match alignPass alignF ref rest with
      | .ok rest' => .ok (w :: rest')
      | .exn e rest' => .exn e (w :: rest')

/-- Square of the convergence tolerance `1e-11` of the source. -/
def tolSq : ℚ := (1 / 10 ^ 11) ^ 2

/-- Loop guard `np.linalg.norm(ref_v - old_ref_v) > 1e-11 and 1000 > n_steps`.
The norm comparison is embedded squared: `norm(d) > 1e-11 ↔ sumSq d > (1/10^11)^2`.
The subtraction itself can raise (shape mismatch). -/
def guardCheck (st : GPAState) : Except PyError Bool :=
  (npSub st.ref_v st.old_ref_v).map
    (fun d => decide (tolSq < sumSq d) && decide (st.n_steps < 1000))

/-- One execution of the loop body: `n_steps += 1`, `old_ref_v = copy(ref_v)`,
the alignment pass over all meshes, then the mean recomputation.  An
exception from `align` or from `np.mean` propagates, leaving the state as
mutated so far. -/
def gpaStep (alignF : AlignFn) (st : GPAState) : Outcome GPAState :=
  match alignPass alignF st.ref_v st.surf with
  | .exn e surf' =>
    .exn e { surf := surf', ref_v := st.ref_v, old_ref_v := st.ref_v,
             n_steps := st.n_steps + 1 }
  | .ok surf' =>
    match npMean surf' with
    | .error e =>
      .exn e { surf := surf', ref_v := st.ref_v, old_ref_v := st.ref_v,
               n_steps := st.n_steps + 1 }
    | .ok r =>
      .ok { surf := surf', ref_v := r, old_ref_v := st.ref_v,
            n_steps := st.n_steps + 1 }

/-- Embedding of the `while` loop, with fuel.  Fuel `1001` makes this an exact embedding:
the guard conjunct `n_steps < 1000` exhausts before the fuel does (proved in
`gpaLoop_fuel_stable`). -/
def gpaLoop (alignF : AlignFn) : ℕ → GPAState → Outcome GPAState
  | 0, st => .ok st
  | fuel + 1, st =>
    match guardCheck st with
    | .error e => .exn e st
    | .ok false => .ok st
    | .ok true =>
      match gpaStep alignF st with
      | .exn e st' => .exn e st'
      | .ok st' => gpaLoop alignF fuel st'

/-- The caller-visible result of one call to `generalized_procrustes`:
the final contents of each mesh's vertex array (mutated in place), the
exception propagated to the caller if one was raised, the value returned by
the function (`none` — the Python function has no `return` statement), the
number of executed loop iterations, and the final value of the local
`ref_v` (not visible to the caller). -/
structure GPARun where
  surf : List Verts
  err : Option PyError
  ret : Option Verts
  n_steps : ℕ
  ref_v : Verts
deriving DecidableEq, Repr

/-- Embedding of `generalized_procrustes(surf)` with the external `align` injected.
`surf[0]` on an empty collection raises `IndexError` before any state is
touched; otherwise `ref_v` starts as a copy of the first mesh's vertices,
`old_ref_v` as `ref_v + 1`, and the loop runs. -/
def generalized_procrustes (alignF : AlignFn) (surf : List Verts) : GPARun :=
  match surf with
  | [] =>
    { surf := [], err := some .indexError, ret := none, n_steps := 0, ref_v := [] }
  | s0 :: rest =>
    match gpaLoop alignF 1001
        { surf := s0 :: rest, ref_v := s0, old_ref_v := npAdd1 s0, n_steps := 0 } with
    | .ok st =>
      { surf := st.surf, err := none, ret := none, n_steps := st.n_steps,
        ref_v := st.ref_v }
    | .exn e st =>
      { surf := st.surf, err := some e, ret := none, n_steps := st.n_steps,
        ref_v := st.ref_v }

/-- The `i`-th vertex of every mesh that has one; with uniform lengths this
is one column of the stacked array that `np.mean(..., axis=0)` averages. -/
def pointsAt (i : ℕ) (ms : List Verts) : List Vec3 := ms.filterMap (fun m => m[i]?)

/-- A pathological (but always-returning) alignment primitive: it encodes an
iteration counter in the first coordinate and, on the 1000th iteration,
returns an array with a different vertex count. -/
def alignCe : AlignFn := fun v _ =>
  if (999 : ℚ) ≤ (v.headD vZero).x then .ok [vZero, vZero, vZero]
  else .ok [⟨(v.headD vZero).x + 1, 0, 0⟩, vZero]

instance {ε α : Type} [DecidableEq ε] [DecidableEq α] : DecidableEq (Except ε α) := fun x y =>
  match x, y with
  | .ok a, .ok b =>
    if h : a = b then isTrue (congrArg Except.ok h)
    else isFalse fun hh => h (Except.ok.inj hh)
  | .error e, .error f =>
    if h : e = f then isTrue (congrArg Except.error h)
    else isFalse fun hh => h (Except.error.inj hh)
  | .ok _, .error _ => isFalse fun hh => Except.noConfusion hh
  | .error _, .ok _ => isFalse fun hh => Except.noConfusion hh

/-! Basic lemmas about the vector operations. -/

theorem vAdd_zero_left (p : Vec3) : vAdd vZero p = p := by
  ext <;> simp [vAdd, vZero]

theorem vNormSq_nonneg (p : Vec3) : 0 ≤ vNormSq p :=
  add_nonneg (add_nonneg (mul_self_nonneg _) (mul_self_nonneg _)) (mul_self_nonneg _)

theorem sumSq_cons (p : Vec3) (t : Verts) : sumSq (p :: t) = vNormSq p + sumSq t := by
  simp [sumSq]

theorem sumSq_nonneg (v : Verts) : 0 ≤ sumSq v := by
  induction v with
  | nil => simp [sumSq]
  | cons p t ih => rw [sumSq_cons]; exact add_nonneg (vNormSq_nonneg p) ih

/-- Distance of a reference to itself is zero. -/
theorem sumSq_sub_self (v : Verts) : sumSq (List.zipWith vSub v v) = 0 := by
  induction v with
  | nil => simp [sumSq]
  | cons p t ih =>
    have hhead : vNormSq (vSub p p) = 0 := by simp [vSub, vNormSq]
    rw [List.zipWith_cons_cons, sumSq_cons, hhead, ih, add_zero]

/-- Squared distance of a reference to the `+1`-shifted sentinel: every one
of the `3 * n` coordinates contributes `1`. -/
theorem sumSq_sub_npAdd1 (v : Verts) :
    sumSq (List.zipWith vSub v (npAdd1 v)) = 3 * v.length := by
  induction v with
  | nil => simp [sumSq, npAdd1]
  | cons p t ih =>
    have hhead : vNormSq (vSub p ⟨p.x + 1, p.y + 1, p.z + 1⟩) = 3 := by
      simp [vSub, vNormSq]
      ring
    simp only [npAdd1, List.map_cons, List.zipWith_cons_cons, sumSq_cons, hhead]
    rw [show List.zipWith vSub t (List.map (fun p => (⟨p.x + 1, p.y + 1, p.z + 1⟩ : Vec3)) t) =
          List.zipWith vSub t (npAdd1 t) from rfl, ih]
    simp only [List.length_cons]
    push_cast
    ring

theorem tolSq_nonneg : 0 ≤ tolSq := by norm_num [tolSq]

theorem tolSq_lt_three : tolSq < 3 := by norm_num [tolSq]

/-! Lemmas about the loop guard. -/

/-- When the two reference arrays have the same shape (which holds in every
reachable state of a run whose `align` preserves array lengths), the guard
does not raise and is the conjunction of the tolerance test and the
iteration-cap test. -/
theorem guardCheck_eq_ok (st : GPAState) (h : st.ref_v.length = st.old_ref_v.length) :
    guardCheck st =
      .ok (decide (tolSq < sumSq (List.zipWith vSub st.ref_v st.old_ref_v)) &&
           decide (st.n_steps < 1000)) := by
  simp [guardCheck, npSub, h, Except.map]

/-- A true guard implies the iteration cap has not been hit. -/
theorem guardCheck_true_lt (st : GPAState) (h : guardCheck st = .ok true) :
    st.n_steps < 1000 := by
  unfold guardCheck at h
  cases hs : npSub st.ref_v st.old_ref_v with
  | error e => rw [hs] at h; simp [Except.map] at h
  | ok d =>
    rw [hs] at h
    simp [Except.map, Bool.and_eq_true, decide_eq_true_iff] at h
    exact h.2

/-! Lemmas about the per-mesh alignment pass. -/

/-- The alignment pass succeeds with result `ms'` exactly when each mesh's
vertex array is replaced, in collection order, by the successful result of
`align` against the iteration's reference. -/
theorem alignPass_ok_iff (alignF : AlignFn) (ref : Verts) (ms ms' : List Verts) :
    alignPass alignF ref ms = .ok ms' ↔
      List.Forall₂ (fun v w => alignF v ref = .ok w) ms ms' := by
  induction ms generalizing ms' with
  | nil =>
    constructor
    · intro h
      cases ms' with
      | nil => exact List.Forall₂.nil
      | cons _ _ => simp [alignPass] at h
    · intro h
      cases h
      rfl
  | cons v rest ih =>
    constructor
    · intro h
      unfold alignPass at h
      cases hv : alignF v ref with
      | error e => rw [hv] at h; simp at h
      | ok w =>
        rw [hv] at h
        cases hr : alignPass alignF ref rest with
        | exn e rest' => rw [hr] at h; simp at h
        | ok rest' =>
          rw [hr] at h
          simp only [Outcome.ok.injEq] at h
          subst h
          exact List.Forall₂.cons hv ((ih rest').mp hr)
    · intro h
      cases h with
      | cons hv hrest =>
        unfold alignPass
        rw [hv, (ih _).mpr hrest]

/-- If every `align` call succeeds (returning an array of the source's
length), the pass succeeds and preserves each mesh's vertex count. -/
theorem alignPass_total (alignF : AlignFn) (ref : Verts)
    (h : ∀ v r, ∃ w, alignF v r = .ok w ∧ w.length = v.length) (ms : List Verts) :
    ∃ ms', alignPass alignF ref ms = .ok ms' ∧
      List.Forall₂ (fun v w => alignF v ref = .ok w ∧ w.length = v.length) ms ms' := by
  induction ms with
  | nil => exact ⟨[], rfl, List.Forall₂.nil⟩
  | cons v rest ih =>
    obtain ⟨ms', hok, hf⟩ := ih
    obtain ⟨w, hw, hlen⟩ := h v ref
    refine ⟨w :: ms', ?_, List.Forall₂.cons ⟨hw, hlen⟩ hf⟩
    unfold alignPass
    rw [hw, hok]

/-- A failing `align` call aborts the pass: meshes before the failing one
(in collection order) keep their freshly aligned arrays, the failing one and
all later ones keep their previous arrays, and the error is passed on
unmodified. -/
theorem alignPass_err_at (alignF : AlignFn) (ref : Verts)
    (pre pre' post : List Verts) (bad : Verts) (e : PyError)
    (hpre : List.Forall₂ (fun v w => alignF v ref = .ok w) pre pre')
    (hbad : alignF bad ref = .error e) :
    alignPass alignF ref (pre ++ bad :: post) = .exn e (pre' ++ bad :: post) := by
  induction hpre with
  | nil =>
    simp only [List.nil_append]
    unfold alignPass
    rw [hbad]
  | cons hv hrest ih =>
    simp only [List.cons_append]
    unfold alignPass
    rw [hv, ih]

/-! Lemmas about the mean recomputation. -/

theorem filterMap_length_of_all_some {α β : Type} (f : α → Option β) (l : List α)
    (h : ∀ a ∈ l, ∃ b, f a = some b) : (l.filterMap f).length = l.length := by
  induction l with
  | nil => rfl
  | cons a t ih =>
    obtain ⟨b, hb⟩ := h a (by simp)
    rw [List.filterMap_cons_some hb, List.length_cons, List.length_cons,
      ih fun a ha => h a (by simp [ha])]

theorem pointsAt_length (i : ℕ) (ms : List Verts) (h : ∀ m ∈ ms, i < m.length) :
    (pointsAt i ms).length = ms.length := by
  refine filterMap_length_of_all_some _ _ fun m hm => ?_
  exact ⟨_, List.getElem?_eq_getElem (h m hm)⟩

/-- Length of the running elementwise sum inside `npMean`. -/
theorem foldl_zipWith_length (rest : List Verts) :
    ∀ acc : Verts, (∀ w ∈ rest, w.length = acc.length) →
      (rest.foldl (fun acc w => List.zipWith vAdd acc w) acc).length = acc.length := by
  induction rest with
  | nil => intro acc _; rfl
  | cons w t ih =>
    intro acc h
    have hw : w.length = acc.length := h w (by simp)
    have hz : (List.zipWith vAdd acc w).length = acc.length := by
      simp [List.length_zipWith, hw]
    rw [List.foldl_cons, ih (List.zipWith vAdd acc w) ?_, hz]
    intro u hu
    rw [hz]
    exact h u (by simp [hu])

/-- One entry of the running elementwise sum inside `npMean`: entry `i` is
the `vAdd`-fold of the `i`-th vertex of every summand. -/
theorem foldl_zipWith_getElem? (rest : List Verts) :
    ∀ (acc : Verts) (i : ℕ) (q : Vec3), (∀ w ∈ rest, w.length = acc.length) →
      acc[i]? = some q →
      (rest.foldl (fun acc w => List.zipWith vAdd acc w) acc)[i]? =
        some ((pointsAt i rest).foldl vAdd q) := by
  induction rest with
  | nil => intro acc i q _ hq; simpa [pointsAt] using hq
  | cons w t ih =>
    intro acc i q h hq
    have hw : w.length = acc.length := h w (by simp)
    have hi : i < acc.length := by
      obtain ⟨hlt, -⟩ := List.getElem?_eq_some_iff.mp hq
      exact hlt
    have hwi : w[i]? = some w[i] := List.getElem?_eq_getElem (by omega)
    have hz : (List.zipWith vAdd acc w)[i]? = some (vAdd q w[i]) := by
      rw [List.getElem?_zipWith, hq, hwi]
    have hzl : (List.zipWith vAdd acc w).length = acc.length := by
      simp [List.length_zipWith, hw]
    rw [List.foldl_cons,
      ih (List.zipWith vAdd acc w) i (vAdd q w[i]) (fun u hu => by rw [hzl]; exact h u (by simp [hu])) hz]
    have hpts : pointsAt i (w :: t) = w[i] :: pointsAt i t := by
      simp [pointsAt, List.filterMap_cons, hwi]
    rw [hpts, List.foldl_cons]

/-- Unfolding lemma for `npMean` on a non-empty stack. -/
theorem npMean_cons (v : Verts) (rest : List Verts) :
    npMean (v :: rest) =
      if rest.all (fun w => w.length = v.length) then
        .ok ((rest.foldl (fun acc w => List.zipWith vAdd acc w) v).map
              (fun p => vScale (1 / ((rest.length + 1 : ℕ) : ℚ)) p))
      else .error .valueError := rfl

/-- Success shape of `npMean`: the input is non-empty, all meshes share the
first mesh's vertex count, and so does the result. -/
theorem npMean_ok_length (vs : List Verts) (r : Verts) (h : npMean vs = .ok r) :
    ∃ v rest, vs = v :: rest ∧ r.length = v.length ∧ ∀ w ∈ rest, w.length = v.length := by
  cases vs with
  | nil => simp [npMean] at h
  | cons v rest =>
    rw [npMean_cons] at h
    by_cases hall : ∀ w ∈ rest, w.length = v.length
    · refine ⟨v, rest, rfl, ?_, hall⟩
      rw [if_pos (by simpa using hall)] at h
      simp only [Except.ok.injEq] at h
      subst h
      rw [List.length_map, foldl_zipWith_length rest v hall]
    · rw [if_neg (by simpa using hall)] at h
      simp at h

/-- Ragged input to `np.mean` (a mesh whose vertex count differs from the
first mesh's) raises `ValueError`. -/
theorem npMean_err_of_ragged (v : Verts) (rest : List Verts) (w : Verts)
    (hw : w ∈ rest) (h : w.length ≠ v.length) :
    npMean (v :: rest) = .error .valueError := by
  rw [npMean_cons, if_neg]
  intro hall
  rw [List.all_eq_true] at hall
  exact h (by simpa using hall w hw)

/-- Entry `i` of a successful `npMean` is the arithmetic mean, over all
meshes, of their `i`-th vertex. -/
theorem npMean_ok_getElem? (vs : List Verts) (r : Verts) (h : npMean vs = .ok r)
    (i : ℕ) (p : Vec3) (hp : r[i]? = some p) :
    p = vScale (1 / (vs.length : ℚ)) (vSum (pointsAt i vs)) := by
  obtain ⟨v, rest, rfl, hrl, hall⟩ := npMean_ok_length vs r h
  rw [npMean_cons, if_pos (by simpa using hall)] at h
  simp only [Except.ok.injEq] at h
  subst h
  rw [List.getElem?_map] at hp
  cases hf : (rest.foldl (fun acc w => List.zipWith vAdd acc w) v)[i]? with
  | none => rw [hf] at hp; simp at hp
  | some s =>
    rw [hf] at hp
    simp only [Option.map, Option.some.injEq] at hp
    have hi : i < v.length := by
      have := (List.getElem?_eq_some_iff.mp hf).1
      rwa [foldl_zipWith_length rest v hall] at this
    have hv : v[i]? = some v[i] := List.getElem?_eq_getElem hi
    rw [foldl_zipWith_getElem? rest v i v[i] hall hv] at hf
    simp only [Option.some.injEq] at hf
    have hpts : pointsAt i (v :: rest) = v[i] :: pointsAt i rest := by
      simp [pointsAt, List.filterMap_cons, hv]
    rw [← hp, ← hf]
    unfold vSum
    rw [hpts, List.foldl_cons, vAdd_zero_left]
    simp [List.length_cons]

/-- Folding `vAdd` over `k` copies of `c` adds `k * c` componentwise. -/
theorem foldl_vAdd_replicate (k : ℕ) (q c : Vec3) :
    (List.replicate k c).foldl vAdd q =
      ⟨q.x + k * c.x, q.y + k * c.y, q.z + k * c.z⟩ := by
  induction k generalizing q with
  | zero => ext <;> simp
  | succ k ih =>
    rw [List.replicate_succ, List.foldl_cons, ih (vAdd q c)]
    ext <;> (simp [vAdd]; ring)

/-- With `n < v.length`, the `n`-th column of a stack of copies of `v` is a
column of copies of `v[n]`. -/
theorem pointsAt_const (n : ℕ) (v : Verts) (hn : n < v.length) (rest : List Verts)
    (h : ∀ w ∈ rest, w = v) :
    pointsAt n rest = List.replicate rest.length v[n] := by
  induction rest with
  | nil => rfl
  | cons w t ih =>
    have hw : w = v := h w (by simp)
    subst hw
    rw [List.length_cons, List.replicate_succ]
    simp only [pointsAt, List.filterMap_cons, List.getElem?_eq_getElem hn]
    exact congrArg _ (ih fun u hu => h u (by simp [hu]))

/-- Averaging identical vertex arrays returns that array: the mean step is
the identity on an already-converged collection. -/
theorem npMean_const (R : Verts) (vs : List Verts) (hne : vs ≠ [])
    (hall : ∀ m ∈ vs, m = R) : npMean vs = .ok R := by
  cases vs with
  | nil => exact absurd rfl hne
  | cons v rest =>
    have hv : v = R := hall v (by simp)
    subst hv
    have hrest : ∀ w ∈ rest, w = v := fun w hw => hall w (by simp [hw])
    have hlen : ∀ w ∈ rest, w.length = v.length := fun w hw => by rw [hrest w hw]
    rw [npMean_cons, if_pos (by simpa using hlen)]
    congr 1
    apply List.ext_getElem?
    intro n
    by_cases hn : n < v.length
    · have hvn : v[n]? = some v[n] := List.getElem?_eq_getElem hn
      rw [List.getElem?_map,
        foldl_zipWith_getElem? rest v n v[n] hlen hvn,
        pointsAt_const n v hn rest hrest, foldl_vAdd_replicate, hvn]
      simp only [Option.map, Option.some.injEq]
      have hk : ((rest.length : ℚ) + 1) ≠ 0 := by positivity
      ext <;> (simp [vScale]; field_simp; ring)
    · have h1 : ((rest.foldl (fun acc w => List.zipWith vAdd acc w) v).map
          (fun p => vScale (1 / ((rest.length + 1 : ℕ) : ℚ)) p))[n]? = none := by
        apply List.getElem?_eq_none
        rw [List.length_map, foldl_zipWith_length rest v hlen]
        omega
      rw [h1, List.getElem?_eq_none (by omega)]

/-! Lemmas about the loop. -/

/-- Unfolding equation for one check of the `while` guard. -/
theorem gpaLoop_succ (alignF : AlignFn) (fuel : ℕ) (st : GPAState) :
    gpaLoop alignF (fuel + 1) st =
      match guardCheck st with
      | .error e => .exn e st
      | .ok false => .ok st
      | .ok true =>
        match gpaStep alignF st with
        | .exn e st' => .exn e st'
        | .ok st' => gpaLoop alignF fuel st' := rfl

/-- The loop body increments `n_steps` exactly once (`n_steps = n_steps + 1`
runs before anything that can raise). -/
theorem gpaStep_state_n_steps (alignF : AlignFn) (st : GPAState) :
    (gpaStep alignF st).state.n_steps = st.n_steps + 1 := by
  unfold gpaStep
  split
  · rfl
  · split
    · rfl
    · rfl

/-- The iteration counter never decreases across the loop. -/
theorem gpaLoop_n_steps_le (alignF : AlignFn) :
    ∀ (fuel : ℕ) (st : GPAState),
      st.n_steps ≤ (gpaLoop alignF fuel st).state.n_steps := by
  intro fuel
  induction fuel with
  | zero => intro st; exact le_rfl
  | succ fuel ih =>
    intro st
    rw [gpaLoop_succ]
    cases hg : guardCheck st with
    | error e => exact le_rfl
    | ok b =>
      cases b with
      | false => exact le_rfl
      | true =>
        cases hs : gpaStep alignF st with
        | exn e st' =>
          have h1 := gpaStep_state_n_steps alignF st
          rw [hs] at h1
          simp only [Outcome.state] at h1 ⊢
          omega
        | ok st' =>
          have h1 := gpaStep_state_n_steps alignF st
          rw [hs] at h1
          simp only [Outcome.state] at h1
          calc st.n_steps ≤ st'.n_steps := by omega
            _ ≤ (gpaLoop alignF fuel st').state.n_steps := ih st'

/-- The loop body runs only while `n_steps < 1000`, so the counter never
exceeds `1000`. -/
theorem gpaLoop_n_steps_le_1000 (alignF : AlignFn) :
    ∀ (fuel : ℕ) (st : GPAState), st.n_steps ≤ 1000 →
      (gpaLoop alignF fuel st).state.n_steps ≤ 1000 := by
  intro fuel
  induction fuel with
  | zero => intro st h; exact h
  | succ fuel ih =>
    intro st h
    rw [gpaLoop_succ]
    cases hg : guardCheck st with
    | error e => exact h
    | ok b =>
      cases b with
      | false => exact h
      | true =>
        have hlt : st.n_steps < 1000 := guardCheck_true_lt st hg
        cases hs : gpaStep alignF st with
        | exn e st' =>
          have h1 := gpaStep_state_n_steps alignF st
          rw [hs] at h1
          simp only [Outcome.state] at h1 ⊢
          omega
        | ok st' =>
          have h1 := gpaStep_state_n_steps alignF st
          rw [hs] at h1
          simp only [Outcome.state] at h1
          exact ih st' (by omega)

/-- Above the threshold forced by the `n_steps < 1000` conjunct, adding fuel
does not change the loop's result: fuel `1001` is an exact embedding of the
unbounded `while` loop for runs starting at `n_steps = 0`. -/
theorem gpaLoop_fuel_stable (alignF : AlignFn) :
    ∀ (fuel : ℕ) (st : GPAState), 1000 ≤ st.n_steps + fuel →
      gpaLoop alignF (fuel + 2) st = gpaLoop alignF (fuel + 1) st := by
  intro fuel
  induction fuel with
  | zero =>
    intro st h
    rw [gpaLoop_succ alignF 1 st, gpaLoop_succ alignF 0 st]
    cases hg : guardCheck st with
    | error e => rfl
    | ok b =>
      cases b with
      | false => rfl
      | true => exact absurd (guardCheck_true_lt st hg) (by omega)
  | succ fuel ih =>
    intro st h
    rw [gpaLoop_succ alignF (fuel + 2) st, gpaLoop_succ alignF (fuel + 1) st]
    cases hg : guardCheck st with
    | error e => rfl
    | ok b =>
      cases b with
      | false => rfl
      | true =>
        cases hs : gpaStep alignF st with
        | exn e st' => rfl
        | ok st' =>
          have h1 := gpaStep_state_n_steps alignF st
          rw [hs] at h1
          simp only [Outcome.state] at h1
          exact ih st' (by omega)

/-- Unfolding equation for `generalized_procrustes` on a non-empty
collection. -/
theorem generalized_procrustes_cons (alignF : AlignFn) (s0 : Verts)
    (rest : List Verts) :
    generalized_procrustes alignF (s0 :: rest) =
      match gpaLoop alignF 1001
          { surf := s0 :: rest, ref_v := s0, old_ref_v := npAdd1 s0, n_steps := 0 } with
      | .ok st =>
        { surf := st.surf, err := none, ret := none, n_steps := st.n_steps,
          ref_v := st.ref_v }
      | .exn e st =>
        { surf := st.surf, err := some e, ret := none, n_steps := st.n_steps,
          ref_v := st.ref_v } := rfl

/-- A length-preserving alignment pass maps a collection of uniform vertex
count to a collection of the same uniform vertex count. -/
theorem alignPass_forall₂_length (alignF : AlignFn) (ref : Verts) :
    ∀ (ms ms' : List Verts),
      List.Forall₂ (fun v w => alignF v ref = .ok w ∧ w.length = v.length) ms ms' →
      ∀ L : ℕ, (∀ m ∈ ms, m.length = L) → ∀ w ∈ ms', w.length = L := by
  intro ms ms' h
  induction h with
  | nil => intro L _ w hw; simp at hw
  | cons hv hrest ih =>
    intro L hms w hw
    rcases List.mem_cons.mp hw with rfl | hw'
    · rw [hv.2]; exact hms _ (by simp)
    · exact ih L (fun m hm => hms m (by simp [hm])) w hw'

/-- Once every mesh has the reference's vertex count and the two reference
arrays agree in shape, the loop can no longer raise: every later guard,
alignment pass (for a total, length-preserving `align`) and mean succeeds. -/
theorem gpaLoop_ok_of_uniform (alignF : AlignFn)
    (halign : ∀ v r, ∃ w, alignF v r = .ok w ∧ w.length = v.length) :
    ∀ (fuel : ℕ) (st : GPAState),
      st.old_ref_v.length = st.ref_v.length → st.surf ≠ [] →
      (∀ m ∈ st.surf, m.length = st.ref_v.length) →
      ∃ stf, gpaLoop alignF fuel st = .ok stf := by
  intro fuel
  induction fuel with
  | zero => intro st _ _ _; exact ⟨st, rfl⟩
  | succ fuel ih =>
    intro st h1 h2 h3
    rw [gpaLoop_succ, guardCheck_eq_ok st h1.symm]
    cases hb : (decide (tolSq < sumSq (List.zipWith vSub st.ref_v st.old_ref_v)) &&
        decide (st.n_steps < 1000)) with
    | false => exact ⟨st, rfl⟩
    | true =>
      obtain ⟨surf', hpass, hf⟩ := alignPass_total alignF st.ref_v halign st.surf
      have hlen' : ∀ w ∈ surf', w.length = st.ref_v.length :=
        alignPass_forall₂_length alignF st.ref_v st.surf surf' hf st.ref_v.length h3
      have hne' : surf' ≠ [] := by
        intro hnil
        subst hnil
        have hlen0 := hf.length_eq
        simp only [List.length_nil] at hlen0
        exact h2 (List.length_eq_zero.mp hlen0)
      obtain ⟨hd', tl', rfl⟩ := List.exists_cons_of_ne_nil hne'
      have htl'len : ∀ w ∈ tl', w.length = hd'.length := fun w hw => by
        rw [hlen' w (by simp [hw]), hlen' hd' (by simp)]
      have hmean : npMean (hd' :: tl') =
          .ok ((tl'.foldl (fun acc w => List.zipWith vAdd acc w) hd').map
                (fun p => vScale (1 / ((tl'.length + 1 : ℕ) : ℚ)) p)) := by
        rw [npMean_cons, if_pos]
        simp only [List.all_eq_true, decide_eq_true_eq]
        exact htl'len
      unfold gpaStep
      rw [hpass]
      dsimp only
      rw [hmean]
      dsimp only
      apply ih
      · rw [List.length_map, foldl_zipWith_length tl' hd' htl'len]
        exact (hlen' hd' (by simp)).symm
      · simp
      · intro m hm
        rw [List.length_map, foldl_zipWith_length tl' hd' htl'len,
          hlen' m hm, hlen' hd' (by simp)]

/-- Under a total, length-preserving `align`, the only statement of the loop
that can raise is the very first mean recomputation (on a ragged input
collection): any raised exception carries `n_steps = n_steps₀ + 1`. -/
theorem gpaLoop_exn_first_iteration (alignF : AlignFn)
    (halign : ∀ v r, ∃ w, alignF v r = .ok w ∧ w.length = v.length) :
    ∀ (fuel : ℕ) (st : GPAState) (e : PyError) (stf : GPAState),
      st.old_ref_v.length = st.ref_v.length →
      (∀ hd, st.surf.head? = some hd → hd.length = st.ref_v.length) →
      gpaLoop alignF fuel st = .exn e stf → stf.n_steps = st.n_steps + 1 := by
  intro fuel
  cases fuel with
  | zero => intro st e stf _ _ hout; simp [gpaLoop] at hout
  | succ fuel =>
    intro st e stf h1 hhead hout
    rw [gpaLoop_succ, guardCheck_eq_ok st h1.symm] at hout
    cases hb : (decide (tolSq < sumSq (List.zipWith vSub st.ref_v st.old_ref_v)) &&
        decide (st.n_steps < 1000)) with
    | false => rw [hb] at hout; simp at hout
    | true =>
      rw [hb] at hout
      dsimp only at hout
      obtain ⟨surf', hpass, hf⟩ := alignPass_total alignF st.ref_v halign st.surf
      unfold gpaStep at hout
      rw [hpass] at hout
      dsimp only at hout
      cases hmean : npMean surf' with
      | error e' =>
        rw [hmean] at hout
        dsimp only at hout
        simp only [Outcome.exn.injEq] at hout
        rw [← hout.2]
      | ok r =>
        rw [hmean] at hout
        dsimp only at hout
        obtain ⟨v2, rest2, heq, hrl, hall⟩ := npMean_ok_length surf' r hmean
        subst heq
        cases hq : st.surf with
        | nil => rw [hq] at hf; cases hf
        | cons hd tl =>
          rw [hq] at hf
          cases hf with
          | cons hhd htl =>
            have hhdlen : hd.length = st.ref_v.length := hhead hd (by rw [hq]; rfl)
            have hv2 : v2.length = st.ref_v.length := by rw [hhd.2, hhdlen]
            obtain ⟨stf2, hok⟩ := gpaLoop_ok_of_uniform alignF halign fuel
              ⟨v2 :: rest2, r, st.ref_v, st.n_steps + 1⟩
              (by dsimp only; rw [hrl, hv2]) (by simp)
              (by
                dsimp only
                intro m hm
                rcases List.mem_cons.mp hm with rfl | hm'
                · exact hrl.symm ▸ rfl
                · rw [hall m hm', ← hrl])
            rw [hok] at hout
            simp at hout

/-- C2 (amended): for every input collection and every behaviour of the
external `align` primitive that, whenever called, successfully returns a
vertex array with the vertex count of its source, the loop body executes at
most 1000 times; and if the iteration cap is reached the procedure exits
silently, without raising any error, accepting the last-computed mesh
states.  (The original claim, quantified over arbitrary returning `align`
behaviours, is refuted by `gpa_iteration_cap_counterexample`.) -/
theorem gpa_iteration_cap (alignF : AlignFn) (surf : List Verts)
    (halign : ∀ v r, ∃ w, alignF v r = .ok w ∧ w.length = v.length) :
    (generalized_procrustes alignF surf).n_steps ≤ 1000 ∧
    ((generalized_procrustes alignF surf).n_steps = 1000 →
      (generalized_procrustes alignF surf).err = none) := by
  cases surf with
  | nil =>
    refine ⟨?_, ?_⟩
    · simp [generalized_procrustes]
    · intro h
      simp [generalized_procrustes] at h
  | cons s0 rest =>
    rw [generalized_procrustes_cons]
    cases hout : gpaLoop alignF 1001 ⟨s0 :: rest, s0, npAdd1 s0, 0⟩ with
    | ok st =>
      have hbound := gpaLoop_n_steps_le_1000 alignF 1001
        ⟨s0 :: rest, s0, npAdd1 s0, 0⟩ (by simp)
      rw [hout] at hbound
      exact ⟨hbound, fun _ => rfl⟩
    | exn e st =>
      have h1 := gpaLoop_exn_first_iteration alignF halign 1001
        ⟨s0 :: rest, s0, npAdd1 s0, 0⟩ e st
        (by simp [npAdd1])
        (by
          intro hd h
          simp only [List.head?_cons, Option.some.injEq] at h
          rw [← h])
        hout
      have h1' : st.n_steps = 1 := by simpa using h1
      refine ⟨?_, ?_⟩
      · show st.n_steps ≤ 1000
        omega
      · intro hcap
        exfalso
        have hc : st.n_steps = 1000 := hcap
        omega

/-- Witness for `gpa_iteration_cap`: the identity alignment on a singleton
collection satisfies the hypotheses. -/
theorem gpa_iteration_cap_witness :
    (generalized_procrustes (fun v _ => .ok v) [[vZero]]).n_steps ≤ 1000 ∧
    ((generalized_procrustes (fun v _ => .ok v) [[vZero]]).n_steps = 1000 →
      (generalized_procrustes (fun v _ => .ok v) [[vZero]]).err = none) :=
  gpa_iteration_cap (fun v _ => .ok v) [[vZero]] (fun v _ => ⟨v, rfl, rfl⟩)

set_option maxRecDepth 100000 in
/-- C2 counterexample to the claim as stated: `alignCe` returns on every
call, the run reaches the 1000-iteration cap, yet the procedure does not
exit silently — the convergence check after the 1000th iteration raises a
broadcast `ValueError`. -/
theorem gpa_iteration_cap_counterexample :
    (∀ v r, ∃ w, alignCe v r = .ok w) ∧
    (generalized_procrustes alignCe [[vZero, vZero]]).n_steps = 1000 ∧
    (generalized_procrustes alignCe [[vZero, vZero]]).err = some .valueError := by
  refine ⟨?_, ?_⟩
  · intro v r
    unfold alignCe
    split
    · exact ⟨_, rfl⟩
    · exact ⟨_, rfl⟩
  · with_unfolding_all decide

/-- C1: every successfully executed loop iteration, taking the state from
`st` to `st'`, performs in order: (1) the previous-reference variable
becomes (a copy of) the current reference; (2) every mesh's vertex array is
replaced, in collection order, by the result of `align` applied to that
mesh's current vertices and the current reference; (3) the new reference is
the element-wise arithmetic mean over all updated meshes — per vertex index
and per coordinate axis, the average of that entry across all meshes. -/
theorem gpa_iteration_body (alignF : AlignFn) (st st' : GPAState)
    (h : gpaStep alignF st = .ok st') :
    st'.old_ref_v = st.ref_v ∧
    st'.n_steps = st.n_steps + 1 ∧
    List.Forall₂ (fun v w => alignF v st.ref_v = .ok w) st.surf st'.surf ∧
    npMean st'.surf = .ok st'.ref_v ∧
    ∀ (i : ℕ) (p : Vec3), st'.ref_v[i]? = some p →
      p = vScale (1 / (st'.surf.length : ℚ)) (vSum (pointsAt i st'.surf)) ∧
      (pointsAt i st'.surf).length = st'.surf.length := by
  unfold gpaStep at h
  cases hpass : alignPass alignF st.ref_v st.surf with
  | exn e surf' => rw [hpass] at h; simp at h
  | ok surf' =>
    rw [hpass] at h
    dsimp only at h
    cases hmean : npMean surf' with
    | error e => rw [hmean] at h; simp at h
    | ok r =>
      rw [hmean] at h
      simp only [Outcome.ok.injEq] at h
      subst h
      refine ⟨rfl, rfl, (alignPass_ok_iff alignF st.ref_v st.surf surf').mp hpass, hmean, ?_⟩
      intro i p hp
      obtain ⟨v, rest2, heq, hrl, hall2⟩ := npMean_ok_length surf' r hmean
      have hi : i < v.length := by
        have h1 := (List.getElem?_eq_some_iff.mp hp).1
        dsimp only at h1
        omega
      refine ⟨npMean_ok_getElem? surf' r hmean i p hp, ?_⟩
      apply pointsAt_length
      intro m hm
      rw [heq] at hm
      rcases List.mem_cons.mp hm with rfl | hm'
      · exact hi
      · rw [hall2 m hm']; exact hi

/-- Witness for `gpa_iteration_body`: one concrete successful iteration of
the identity alignment on a singleton collection. -/
theorem gpa_iteration_body_witness :
    gpaStep (fun v _ => .ok v)
        ⟨[[⟨2, 4, 6⟩]], [⟨2, 4, 6⟩], npAdd1 [⟨2, 4, 6⟩], 0⟩ =
      .ok ⟨[[⟨2, 4, 6⟩]], [⟨2, 4, 6⟩], [⟨2, 4, 6⟩], 1⟩ ∧
    (⟨[[⟨2, 4, 6⟩]], [⟨2, 4, 6⟩], [⟨2, 4, 6⟩], 1⟩ : GPAState).old_ref_v =
      (⟨[[⟨2, 4, 6⟩]], [⟨2, 4, 6⟩], npAdd1 [⟨2, 4, 6⟩], 0⟩ : GPAState).ref_v := by
  have h : gpaStep (fun v _ => .ok v)
      ⟨[[⟨2, 4, 6⟩]], [⟨2, 4, 6⟩], npAdd1 [⟨2, 4, 6⟩], 0⟩ =
        .ok ⟨[[⟨2, 4, 6⟩]], [⟨2, 4, 6⟩], [⟨2, 4, 6⟩], 1⟩ := by
    with_unfolding_all decide
  exact ⟨h, (gpa_iteration_body (fun v _ => .ok v) _ _ h).1⟩

/-- C3: when the two reference arrays agree in shape (true in every state
the loop reaches with a length-preserving `align`), the loop continues with
a further iteration exactly when the Euclidean (L2) norm of the flattened
difference between the current and the previous reference — the square
root of the sum over all vertices and axes of squared component
differences — exceeds `1e-11` AND the number of already executed
iterations is strictly below 1000. -/
theorem gpa_guard_characterization (st : GPAState)
    (h : st.ref_v.length = st.old_ref_v.length) :
    guardCheck st = .ok true ↔
      (1 / 10 ^ 11 : ℝ) <
          Real.sqrt ((sumSq (List.zipWith vSub st.ref_v st.old_ref_v) : ℚ) : ℝ) ∧
        st.n_steps < 1000 := by
  have hx : (0 : ℝ) ≤ 1 / 10 ^ 11 := by norm_num
  have key : tolSq < sumSq (List.zipWith vSub st.ref_v st.old_ref_v) ↔
      (1 / 10 ^ 11 : ℝ) <
        Real.sqrt ((sumSq (List.zipWith vSub st.ref_v st.old_ref_v) : ℚ) : ℝ) := by
    rw [Real.lt_sqrt hx,
      show ((1 : ℝ) / 10 ^ 11) ^ 2 = ((tolSq : ℚ) : ℝ) by norm_num [tolSq]]
    exact_mod_cast Iff.rfl
  rw [guardCheck_eq_ok st h]
  simp only [Except.ok.injEq, Bool.and_eq_true, decide_eq_true_eq]
  rw [key]

/-- Witness for `gpa_guard_characterization` at a concrete state in which
the guard is true. -/
theorem gpa_guard_characterization_witness :
    (1 / 10 ^ 11 : ℝ) <
        Real.sqrt ((sumSq (List.zipWith vSub [⟨1, 0, 0⟩] [⟨0, 0, 0⟩]) : ℚ) : ℝ) ∧
      (0 : ℕ) < 1000 :=
  (gpa_guard_characterization ⟨[], [⟨1, 0, 0⟩], [⟨0, 0, 0⟩], 0⟩ rfl).mp
    (by with_unfolding_all decide)

/-- With a non-empty reference, the guard against the `+1`-shifted sentinel
is true whenever the cap has not been reached: the squared distance is
`3 * n ≥ 3`, far above the tolerance. -/
theorem guardCheck_entry (surf : List Verts) (s0 : Verts) (h : s0 ≠ [])
    (n : ℕ) (hn : n < 1000) :
    guardCheck ⟨surf, s0, npAdd1 s0, n⟩ = .ok true := by
  have hlen : s0.length = (npAdd1 s0).length := by simp [npAdd1]
  rw [guardCheck_eq_ok _ hlen]
  dsimp only
  have hpos : (1 : ℚ) ≤ (s0.length : ℚ) := by
    have : 1 ≤ s0.length := List.length_pos.mpr h
    exact_mod_cast this
  have htol : tolSq < sumSq (List.zipWith vSub s0 (npAdd1 s0)) := by
    rw [sumSq_sub_npAdd1]
    calc tolSq < 3 := tolSq_lt_three
      _ ≤ 3 * (s0.length : ℚ) := by nlinarith
  rw [decide_eq_true htol, decide_eq_true hn]
  rfl

/-- C4 (amended): for every non-empty collection whose first mesh has at
least one vertex, the initial previous-reference sentinel (the reference
shifted by the constant 1 in every coordinate) differs from the initial
reference, the loop's entry condition is true on the first check, and at
least one iteration executes.  (With an empty first mesh the sentinel
equals the reference and no iteration runs —
`gpa_sentinel_counterexample`.) -/
theorem gpa_sentinel_first_iteration (alignF : AlignFn) (s0 : Verts)
    (rest : List Verts) (h : s0 ≠ []) :
    npAdd1 s0 ≠ s0 ∧
    guardCheck ⟨s0 :: rest, s0, npAdd1 s0, 0⟩ = .ok true ∧
    1 ≤ (generalized_procrustes alignF (s0 :: rest)).n_steps := by
  have hguard : guardCheck ⟨s0 :: rest, s0, npAdd1 s0, 0⟩ = .ok true :=
    guardCheck_entry (s0 :: rest) s0 h 0 (by norm_num)
  refine ⟨?_, hguard, ?_⟩
  · obtain ⟨p, t, rfl⟩ := List.exists_cons_of_ne_nil h
    intro heq
    simp only [npAdd1, List.map_cons, List.cons.injEq] at heq
    have hx := congrArg Vec3.x heq.1
    simp at hx
  · rw [generalized_procrustes_cons, show (1001 : ℕ) = 1000 + 1 from rfl,
      gpaLoop_succ, hguard]
    dsimp only
    cases hs : gpaStep alignF ⟨s0 :: rest, s0, npAdd1 s0, 0⟩ with
    | exn e st' =>
      have h1 := gpaStep_state_n_steps alignF ⟨s0 :: rest, s0, npAdd1 s0, 0⟩
      rw [hs] at h1
      simp only [Outcome.state] at h1
      show 1 ≤ st'.n_steps
      omega
    | ok st' =>
      have h1 := gpaStep_state_n_steps alignF ⟨s0 :: rest, s0, npAdd1 s0, 0⟩
      rw [hs] at h1
      simp only [Outcome.state] at h1
      have h2 := gpaLoop_n_steps_le alignF 1000 st'
      dsimp only
      cases hout : gpaLoop alignF 1000 st' with
      | ok stf =>
        rw [hout] at h2
        simp only [Outcome.state] at h2
        show 1 ≤ stf.n_steps
        omega
      | exn e stf =>
        rw [hout] at h2
        simp only [Outcome.state] at h2
        show 1 ≤ stf.n_steps
        omega

/-- Witness for `gpa_sentinel_first_iteration` on a singleton collection
with a one-vertex mesh. -/
theorem gpa_sentinel_first_iteration_witness :
    npAdd1 [vZero] ≠ [vZero] ∧
    guardCheck ⟨[[vZero]], [vZero], npAdd1 [vZero], 0⟩ = .ok true ∧
    1 ≤ (generalized_procrustes (fun v _ => .ok v) [[vZero]]).n_steps :=
  gpa_sentinel_first_iteration (fun v _ => .ok v) [vZero] [] (by simp)

/-- C4 counterexample to the claim as stated: the collection `[[]]` is
non-empty, but its first mesh has no vertices, so the `+1` sentinel equals
the (empty) reference, the entry condition is false on the first check and
zero iterations execute. -/
theorem gpa_sentinel_counterexample :
    npAdd1 [] = ([] : Verts) ∧
    (generalized_procrustes (fun v _ => .ok v) [([] : Verts)]).n_steps = 0 := by
  constructor
  · rfl
  · with_unfolding_all decide

/-- C5 (amended): for every non-empty collection all of whose meshes
already equal one common reference shape `R` with at least one vertex, and
any `align` primitive for which aligning a shape onto itself is the
identity, exactly one loop iteration executes: the first mean recomputation
returns `R`, the reference then equals the previous reference (squared
distance 0, below the tolerance), the loop exits without error, and every
mesh's vertex positions are unchanged.  (With the empty reference shape no
iteration at all executes — `gpa_fixed_point_counterexample`.) -/
theorem gpa_fixed_point_one_iteration (alignF : AlignFn) (R : Verts)
    (surf : List Verts) (hne : surf ≠ []) (hR : R ≠ [])
    (hall : ∀ m ∈ surf, m = R) (hid : ∀ x, alignF x x = .ok x) :
    generalized_procrustes alignF surf =
      { surf := surf, err := none, ret := none, n_steps := 1, ref_v := R } ∧
    sumSq (List.zipWith vSub R R) = 0 := by
  refine ⟨?_, sumSq_sub_self R⟩
  obtain ⟨s0, rest, rfl⟩ := List.exists_cons_of_ne_nil hne
  have hs0 : s0 = R := hall s0 (by simp)
  subst hs0
  have hguard1 : guardCheck ⟨s0 :: rest, s0, npAdd1 s0, 0⟩ = .ok true :=
    guardCheck_entry (s0 :: rest) s0 (by rw [← hall s0 (by simp)] at hR; exact hR)
      0 (by norm_num)
  have hpass : alignPass alignF s0 (s0 :: rest) = .ok (s0 :: rest) := by
    apply (alignPass_ok_iff alignF s0 (s0 :: rest) (s0 :: rest)).mpr
    apply List.forall₂_same.mpr
    intro m hm
    rw [hall m hm]
    exact hid s0
  have hmean : npMean (s0 :: rest) = .ok s0 := by
    apply npMean_const s0 (s0 :: rest) (by simp)
    intro m hm
    exact hall m hm
  have hstep : gpaStep alignF ⟨s0 :: rest, s0, npAdd1 s0, 0⟩ =
      .ok ⟨s0 :: rest, s0, s0, 1⟩ := by
    unfold gpaStep
    rw [hpass]
    dsimp only
    rw [hmean]
  have hguard2 : guardCheck ⟨s0 :: rest, s0, s0, 1⟩ = .ok false := by
    rw [guardCheck_eq_ok _ rfl]
    dsimp only
    rw [sumSq_sub_self, decide_eq_false (not_lt.mpr tolSq_nonneg)]
    rfl
  rw [generalized_procrustes_cons, show (1001 : ℕ) = 1000 + 1 from rfl,
    gpaLoop_succ, hguard1]
  dsimp only
  rw [hstep]
  dsimp only
  rw [show (1000 : ℕ) = 999 + 1 from rfl, gpaLoop_succ, hguard2]

/-- Witness for `gpa_fixed_point_one_iteration`: the identity alignment on
a singleton collection already equal to a one-vertex reference. -/
theorem gpa_fixed_point_one_iteration_witness :
    generalized_procrustes (fun v _ => .ok v) [[vZero]] =
      { surf := [[vZero]], err := none, ret := none, n_steps := 1,
        ref_v := [vZero] } ∧
    sumSq (List.zipWith vSub [vZero] [vZero]) = 0 :=
  gpa_fixed_point_one_iteration (fun v _ => .ok v) [vZero] [[vZero]]
    (by simp) (by simp) (by simp) (fun x => rfl)

/-- C5 counterexample to the claim as stated: with the identity alignment
(for which `align(x, x) = x` holds for every `x`) and a single mesh that
has no vertices — a collection in which every mesh equals the common
(empty) reference shape — zero loop iterations execute, not exactly one. -/
theorem gpa_fixed_point_counterexample :
    (∀ x : Verts, (fun (v : Verts) (_ : Verts) => (.ok v : Except PyError Verts)) x x
        = .ok x) ∧
    (generalized_procrustes (fun (v : Verts) (_ : Verts) => (.ok v : Except PyError Verts))
        [([] : Verts)]).n_steps = 0 := by
  refine ⟨fun x => rfl, ?_⟩
  with_unfolding_all decide

/-- C6: on an empty collection the procedure fails immediately at the
`surf[0]` access with a Python `IndexError` — a generic indexing
exception, not an explicit precondition check — before the loop starts and
with no mesh state read or mutated. -/
theorem gpa_empty_collection_indexError (alignF : AlignFn) :
    generalized_procrustes alignF [] =
      { surf := [], err := some .indexError, ret := none, n_steps := 0,
        ref_v := [] } := rfl

/-- Every element of the left list of a `Forall₂` has a related element in
the right list. -/
theorem forall₂_exists_right {R : Verts → Verts → Prop} :
    ∀ {l₁ l₂ : List Verts}, List.Forall₂ R l₁ l₂ →
      ∀ a ∈ l₁, ∃ b ∈ l₂, R a b := by
  intro l₁ l₂ h
  induction h with
  | nil => intro a ha; simp at ha
  | cons hv hrest ih =>
    intro a ha
    rcases List.mem_cons.mp ha with rfl | ha'
    · exact ⟨_, by simp, hv⟩
    · obtain ⟨b, hb, hab⟩ := ih a ha'
      exact ⟨b, by simp [hb], hab⟩

/-- C7 (amended): for every collection whose first mesh has at least one
vertex and which contains a mesh with a different vertex count, and for a
total, length-preserving `align` (the spec's model of the external
primitive), the procedure raises `ValueError` in the first iteration, and
the error surfaces from the mean-computation step: the alignment pass over
all meshes has already completed (every mesh holds its aligned array) when
`np.mean` raises on the ragged stack.  (If the first mesh is empty the loop
never runs and no error is raised at all —
`gpa_mismatched_counts_counterexample`.) -/
theorem gpa_mismatched_counts_valueError (alignF : AlignFn) (s0 m : Verts)
    (rest : List Verts)
    (halign : ∀ v r, ∃ w, alignF v r = .ok w ∧ w.length = v.length)
    (hs0 : s0 ≠ []) (hm : m ∈ s0 :: rest) (hlen : m.length ≠ s0.length) :
    (generalized_procrustes alignF (s0 :: rest)).err = some .valueError ∧
    (generalized_procrustes alignF (s0 :: rest)).n_steps = 1 ∧
    npMean (generalized_procrustes alignF (s0 :: rest)).surf =
      .error .valueError ∧
    List.Forall₂ (fun v w => alignF v s0 = .ok w) (s0 :: rest)
      (generalized_procrustes alignF (s0 :: rest)).surf := by
  have hguard : guardCheck ⟨s0 :: rest, s0, npAdd1 s0, 0⟩ = .ok true :=
    guardCheck_entry (s0 :: rest) s0 hs0 0 (by norm_num)
  obtain ⟨surf', hpass, hf⟩ := alignPass_total alignF s0 halign (s0 :: rest)
  have hmean : npMean surf' = .error .valueError := by
    cases hf with
    | cons hhd htl =>
      rename_i hd' tl'
      have hm' : m ∈ rest := by
        rcases List.mem_cons.mp hm with rfl | hm'
        · exact absurd rfl hlen
        · exact hm'
      obtain ⟨w, hw, hmw⟩ := forall₂_exists_right htl m hm'
      apply npMean_err_of_ragged hd' tl' w hw
      rw [hmw.2, hhd.2]
      exact hlen
  have hstep : gpaStep alignF ⟨s0 :: rest, s0, npAdd1 s0, 0⟩ =
      .exn .valueError ⟨surf', s0, s0, 1⟩ := by
    unfold gpaStep
    rw [hpass]
    dsimp only
    rw [hmean]
  have hrun : generalized_procrustes alignF (s0 :: rest) =
      { surf := surf', err := some .valueError, ret := none, n_steps := 1,
        ref_v := s0 } := by
    rw [generalized_procrustes_cons, show (1001 : ℕ) = 1000 + 1 from rfl,
      gpaLoop_succ, hguard]
    dsimp only
    rw [hstep]
  rw [hrun]
  exact ⟨rfl, rfl, hmean, hf.imp fun a b hab => hab.1⟩

/-- Witness for `gpa_mismatched_counts_valueError`: the identity alignment
on the claim's example — mesh 0 with 3 vertices, mesh 1 with 4. -/
theorem gpa_mismatched_counts_valueError_witness :
    (generalized_procrustes (fun v _ => .ok v)
        [[vZero, vZero, vZero], [vZero, vZero, vZero, vZero]]).err =
      some .valueError ∧
    (generalized_procrustes (fun v _ => .ok v)
        [[vZero, vZero, vZero], [vZero, vZero, vZero, vZero]]).n_steps = 1 := by
  have h := gpa_mismatched_counts_valueError (fun v _ => .ok v)
    [vZero, vZero, vZero] [vZero, vZero, vZero, vZero]
    [[vZero, vZero, vZero, vZero]] (fun v _ => ⟨v, rfl, rfl⟩)
    (by simp) (by simp) (by simp)
  exact ⟨h.1, h.2.1⟩

/-- C7 counterexample to the claim as stated: mesh 0 has 0 vertices and
mesh 1 has 1 — the vertex counts mismatch — but the entry check is already
false (the sentinel of an empty reference is the empty array), so the run
finishes silently: no error is raised at all, and no incorrect mean is
produced either, since the loop body never executes. -/
theorem gpa_mismatched_counts_counterexample :
    (generalized_procrustes (fun v _ => .ok v) [[], [vZero]]).err = none ∧
    (generalized_procrustes (fun v _ => .ok v) [[], [vZero]]).n_steps = 0 := by
  with_unfolding_all decide

/-- C8: if an `align` call raises, the failure propagates unmodified to the
caller: the whole loop immediately terminates with that exact error — no
retry, no handler — with the iteration counter advanced once and the
previous-reference already updated.  Meshes before the failing one (in
collection order, this iteration) already hold their freshly aligned
arrays; the failing mesh and all later ones keep their previous arrays.
The starting state `st` is arbitrary, so arrays mutated in earlier
iterations stay mutated. -/
theorem gpa_align_failure_propagates (alignF : AlignFn) (fuel : ℕ)
    (st : GPAState) (pre pre' post : List Verts) (bad : Verts) (e : PyError)
    (hsurf : st.surf = pre ++ bad :: post)
    (hpre : List.Forall₂ (fun v w => alignF v st.ref_v = .ok w) pre pre')
    (hbad : alignF bad st.ref_v = .error e)
    (hguard : guardCheck st = .ok true) :
    gpaLoop alignF (fuel + 1) st =
      .exn e { surf := pre' ++ bad :: post, ref_v := st.ref_v,
               old_ref_v := st.ref_v, n_steps := st.n_steps + 1 } := by
  rw [gpaLoop_succ, hguard]
  dsimp only
  unfold gpaStep
  rw [hsurf, alignPass_err_at alignF st.ref_v pre pre' post bad e hpre hbad]

/-- Witness for `gpa_align_failure_propagates`: an `align` that raises on
the empty mesh, inside a three-mesh collection, after one mesh has already
been aligned. -/
theorem gpa_align_failure_propagates_witness :
    gpaLoop (fun v _ => if v.length = 0 then .error (.alignExn 7) else .ok v) 1001
        ⟨[[vZero], [], [vZero, vZero]], [vZero], [⟨9, 9, 9⟩], 5⟩ =
      .exn (.alignExn 7)
        { surf := [[vZero], [], [vZero, vZero]], ref_v := [vZero],
          old_ref_v := [vZero], n_steps := 6 } := by
  exact gpa_align_failure_propagates
    (fun v _ => if v.length = 0 then .error (.alignExn 7) else .ok v) 1000
    ⟨[[vZero], [], [vZero, vZero]], [vZero], [⟨9, 9, 9⟩], 5⟩
    [[vZero]] [[vZero]] [[vZero, vZero]] [] (.alignExn 7)
    rfl
    (List.Forall₂.cons (by with_unfolding_all decide) List.Forall₂.nil)
    (by with_unfolding_all decide)
    (by with_unfolding_all decide)

/-- C9: the procedure returns no value to the caller — the Python function
body has no `return` statement, so the caller receives `None`; the
converged reference is computed into the local `ref_v` but discarded, and
the only externally observable effect is the in-place mutation of each
input mesh's vertex storage (the `surf` and `err` components of the run). -/
theorem gpa_returns_none (alignF : AlignFn) (surf : List Verts) :
    (generalized_procrustes alignF surf).ret = none := by
  cases surf with
  | nil => rfl
  | cons s0 rest =>
    rw [generalized_procrustes_cons]
    cases gpaLoop alignF 1001 ⟨s0 :: rest, s0, npAdd1 s0, 0⟩ with
    | ok st => rfl
    | exn e st => rfl

/-- C10: if the first mesh has no vertices, the `+1` sentinel is again the
empty array, the initial squared distance is `0` (below the tolerance), so
the loop's entry condition is false on the first check, the body executes
zero times, no error is raised, and no mesh in the collection is
modified. -/
theorem gpa_empty_first_mesh_no_iterations (alignF : AlignFn)
    (rest : List Verts) :
    npAdd1 [] = ([] : Verts) ∧
    sumSq (List.zipWith vSub [] (npAdd1 [])) = 0 ∧
    generalized_procrustes alignF (([] : Verts) :: rest) =
      { surf := ([] : Verts) :: rest, err := none, ret := none, n_steps := 0,
        ref_v := [] } := by
  refine ⟨rfl, rfl, ?_⟩
  have hguard : guardCheck ⟨([] : Verts) :: rest, [], npAdd1 [], 0⟩ = .ok false := by
    rw [guardCheck_eq_ok _ rfl]
    dsimp only
    have h0 : ¬ tolSq < sumSq (List.zipWith vSub ([] : Verts) (npAdd1 [])) :=
      not_lt.mpr (by rw [show sumSq (List.zipWith vSub ([] : Verts) (npAdd1 [])) = 0 from rfl]; exact tolSq_nonneg)
    rw [decide_eq_false h0]
    rfl
  rw [generalized_procrustes_cons, show (1001 : ℕ) = 1000 + 1 from rfl,
    gpaLoop_succ, hguard]
